import Mathlib

/-!
Verification of the incremental review reconciliation and notification
pipeline of `google-play-android-review-fetcher` (main.go), as a shallow
embedding in Lean 4.

The embedding follows the Go source closely:
* `Review`, `RatingRange` mirror the structs in main.go.
* `RawReview` mirrors the shape of the Android Publisher API review objects
  consumed by the main loop (review id, author name, a list of comments each
  carrying a user comment with star rating, text, optional device metadata
  and a last-modified epoch-seconds timestamp).
* The Go `map[string]Review` is modelled as an association list with
  `mapLookup` / `mapInsert` (insert replaces an existing key).
* The per-review body of the `for _, review := range reviews.Reviews` loop
  (main.go lines 302-333) is `reconStep`; the whole loop is `runReconciler`.
  A Go panic (indexing `Comments[0]` of an empty slice) is modelled as
  `none`; webhook delivery outcomes are an oracle `deliver : Review → Bool`.
  Besides the updated state and the `newReviews` slice, the model records
  the list of review ids for which `sendToWebhook` was actually invoked
  (`attempts`), so that "a notification was attempted" is observable.
* `sendToWebhook` models the notifier (lines 197-228): the dry-run/test
  branch, the HTTP outcome, and the pacing `time.Sleep(2 * time.Second)`
  calls, reporting how many seconds of pacing delay the call observed.
* `saveReviews` models the persistence step (lines 161-194) at the level of
  file-system effects: `os.Create` truncates the state file in place, then
  the header row and each record row pass through the buffered `csv.Writer`
  in order. An I/O failure observed by a `writer.Write` call returns an
  error, leaving on disk the rows spilled so far; a failure of the final
  `defer writer.Flush()` (or of `defer file.Close()`) is discarded by the
  code, so the call can return nil with part of the content never written.
* `readExistingReviews` models the load step (lines 121-158): a missing
  file yields the empty map, otherwise all CSV rows are read and
  `records[1:]` skips the header; in Go that slice expression panics when
  the record list is empty, which the model renders as `none`.
-/

/-- Mirrors the Go struct `Review` (main.go lines 52-60). The `Date` field
holds the epoch-seconds value the code stores via `time.Unix`. -/
structure Review where
  ReviewID : String
  Rating : Int
  Text : String
  Author : String
  Device : String
  Date : Int
  Notified : Bool
deriving DecidableEq, Repr

/-- Mirrors the Go struct `RatingRange` (main.go lines 63-66). -/
structure RatingRange where
  Start : Int
  End : Int
deriving DecidableEq, Repr

/-- Device metadata of a raw API review comment; the code reads
`DeviceMetadata.ProductName` when metadata is present. -/
structure DeviceMetadata where
  ProductName : String
deriving DecidableEq, Repr

/-- The user-comment payload of a raw API review comment: star rating,
free text, optional device metadata, last-modified epoch seconds. -/
structure UserComment where
  StarRating : Int
  Text : String
  DeviceMetadata : Option DeviceMetadata
  LastModifiedSeconds : Int
deriving DecidableEq, Repr

/-- One entry of a raw review's `Comments` slice. -/
structure RawComment where
  UserComment : UserComment
deriving DecidableEq, Repr

/-- A raw review as returned by the platform fetch: id, author display
name, and the comments slice the loop indexes at position 0. -/
structure RawReview where
  ReviewId : String
  AuthorName : String
  Comments : List RawComment
deriving DecidableEq, Repr

/-- The Go `map[string]Review` state set, as an association list. -/
def StateMap : Type := List (String × Review)

/-- Map lookup: the value stored at `k`, if any. -/
def mapLookup (m : List (String × Review)) (k : String) : Option Review :=
  match m with
  | [] => none
  | (k', v) :: rest => if k' = k then some v else mapLookup rest k

/-- Map insert/replace: `m[k] = v` in Go. -/
def mapInsert (m : List (String × Review)) (k : String) (v : Review) :
    List (String × Review) :=
  match m with
  | [] => [(k, v)]
  | (k', v') :: rest =>
    if k' = k then (k, v) :: rest else (k', v') :: mapInsert rest k v

/-- `cleanText` (main.go lines 231-233): `strings.TrimSpace`, i.e. drop
leading and trailing whitespace characters. -/
def cleanText (text : String) : String :=
  ((text.toList.dropWhile Char.isWhitespace).reverse.dropWhile
    Char.isWhitespace).reverse.asString

/-- The rating filter of main.go line 304: the review is skipped iff a
range is configured and the rating falls outside it, so it passes iff no
range is configured or `Start ≤ rating ≤ End`. -/
def ratingMatches (ratingRange : Option RatingRange) (rating : Int) : Bool :=
  match ratingRange with
  | none => true
  | some r => !(rating < r.Start || rating > r.End)

/-- The `Review` value the loop builds for a candidate (main.go lines
314-322), before delivery: `Notified` starts out `false`. -/
def mkReview (raw : RawReview) (c : RawComment) : Review :=
  { ReviewID := raw.ReviewId
    Rating := c.UserComment.StarRating
    Text := cleanText c.UserComment.Text
    Author := raw.AuthorName
    Device :=
      match c.UserComment.DeviceMetadata with
      | none => "Unknown"
      | some dm => dm.ProductName
    Date := c.UserComment.LastModifiedSeconds
    Notified := false }

/-- The candidate test of main.go line 313:
`existingReview, exists := existingReviews[id]; !exists || !existingReview.Notified`. -/
def isCandidate (st : List (String × Review)) (id : String) : Bool :=
  match mapLookup st id with
  | none => true
  | some existingReview => !existingReview.Notified

/-- The in-memory result of the processing loop: the mutated
`existingReviews` map, the `newReviews` slice, and the ids for which
`sendToWebhook` was invoked (in invocation order). -/
structure ReconResult where
  state : List (String × Review)
  newReviews : List Review
  attempts : List String
deriving Repr

/-- One iteration of the loop over `reviews.Reviews` (main.go lines
302-333). `none` models the Go panic raised by `review.Comments[0]` when
the comments slice is empty; `deliver` is the outcome of `sendToWebhook`
for the constructed review (`true` = nil error). -/
def reconStep (ratingRange : Option RatingRange) (deliver : Review → Bool)
    (acc : ReconResult) (raw : RawReview) : Option ReconResult :=
  match raw.Comments with
  | [] => none
  | c :: _ =>
    let rating := c.UserComment.StarRating
    if ratingMatches ratingRange rating = false then
      some acc
    else if isCandidate acc.state raw.ReviewId then
      let newReview := mkReview raw c
      if deliver newReview then
        some { state :=
                 mapInsert acc.state raw.ReviewId { newReview with Notified := true }
               newReviews := acc.newReviews ++ [{ newReview with Notified := true }]
               attempts := acc.attempts ++ [raw.ReviewId] }
      else
        some { acc with attempts := acc.attempts ++ [raw.ReviewId] }
    else
      some acc

/-- The loop over the fetched list, from an intermediate accumulator. -/
def runFrom (ratingRange : Option RatingRange) (deliver : Review → Bool)
    (acc : ReconResult) : List RawReview → Option ReconResult
  | [] => some acc
  | raw :: rest =>
    match reconStep ratingRange deliver acc raw with
    | none => none
    | some acc' => runFrom ratingRange deliver acc' rest

/-- The whole reconciliation pass of `main`: process the fetched reviews in
fetch order against the loaded state, starting with empty `newReviews` and
no delivery attempts. -/
def runReconciler (ratingRange : Option RatingRange) (deliver : Review → Bool)
    (st : List (String × Review)) (fetch : List RawReview) : Option ReconResult :=
  runFrom ratingRange deliver { state := st, newReviews := [], attempts := [] } fetch

/-- One pipeline run, at state-set granularity: the rating range, the
delivery oracle and the fetched list of that run. -/
structure RunInput where
  ratingRange : Option RatingRange
  deliver : Review → Bool
  fetch : List RawReview

/-- The state a single run persists, given the state it loaded. -/
def runOnce (st : List (String × Review)) (ri : RunInput) :
    Option (List (String × Review)) :=
  (runReconciler ri.ratingRange ri.deliver st ri.fetch).map (·.state)

/-- A sequence of runs, each loading the state the previous one saved. -/
def multiRun (st : List (String × Review)) :
    List RunInput → Option (List (String × Review))
  | [] => some st
  | ri :: rest =>
    match runOnce st ri with
    | none => none
    | some st' => multiRun st' rest

/-- Outcome of the HTTP POST inside `sendToWebhook`: a transport error
from `http.Post`, or a response with the given status code. -/
inductive HttpOutcome where
  | transportError
  | status (code : Nat)
deriving DecidableEq, Repr

/-- What a `sendToWebhook` call produced: whether it returned a nil error,
and how many seconds of pacing `time.Sleep` it observed before returning. -/
structure SendOutcome where
  ok : Bool
  delaySeconds : Nat
deriving DecidableEq, Repr

/-- `sendToWebhook` (main.go lines 197-228), with the ambient `testMode`
flag and the HTTP outcome made explicit. In test mode the message is
logged, the two-second pacing sleep runs, and the call succeeds. In live
mode a transport error returns immediately; a non-200 status returns an
error immediately (the pacing sleep at line 226 sits after that check);
a 200 response sleeps two seconds and succeeds. -/
def sendToWebhook (testMode : Bool) (post : HttpOutcome) : SendOutcome :=
  if testMode then
    { ok := true, delaySeconds := 2 }
  else
    match post with
    | HttpOutcome.transportError => { ok := false, delaySeconds := 0 }
    | HttpOutcome.status code =>
      if code ≠ 200 then { ok := false, delaySeconds := 0 }
      else { ok := true, delaySeconds := 2 }

/-- A row of the on-disk state file: the header row or a review record. -/
inductive SavedRow where
  | header
  | record (r : Review)
deriving DecidableEq, Repr

/-- The full sequence of rows `saveReviews` writes: the header, then one
record per review, in slice order (main.go lines 171-191). -/
def savePlan (reviews : List Review) : List SavedRow :=
  SavedRow.header :: reviews.map SavedRow.record

/-- Effect of a `saveReviews` call on the state file: the file's resulting
row content and whether the call returned a nil error. -/
structure SaveOutcome where
  file : List SavedRow
  ok : Bool
deriving DecidableEq, Repr

/-- Where the underlying file I/O of one `saveReviews` call first fails,
if anywhere. The `csv.Writer` writes through a buffer, so an I/O error can
surface in two distinct places: inside the loop, at some `writer.Write`
call (row position `j`, 0 = header), where main.go checks the error and
returns it; or only at the final `defer writer.Flush()` (main.go line
169), whose error — like that of `defer file.Close()` at line 166 — is
discarded. -/
inductive SaveDiskEvent where
  | allOk
  | writeFails (j : Nat)
  | flushFails
deriving DecidableEq, Repr

/-- `saveReviews` (main.go lines 161-194) at the level of file-system
effects. `prior` is the state file's content before the call. `os.Create`
truncates the file in place before anything is written; if `os.Create`
itself fails (`createFails`) the prior content survives and an error is
returned. Afterwards rows pass through the buffered `csv.Writer`;
`spilled` is the number of rows the buffer had already written through to
the file when a failure struck. When a `writer.Write` call at in-range
row position `j` reports the sticky I/O error, the function returns that
error and the file holds the rows on disk so far (at most `j`, the rows
handed to the writer before the failing call). When every `writer.Write`
succeeds but the deferred final `Flush` fails, its error is discarded, so
the call still returns nil while only the already-spilled prefix is on
disk. Only with fully successful I/O does a nil return coincide with the
complete content being written. -/
def saveReviews (prior : List SavedRow) (reviews : List Review)
    (createFails : Bool) (ev : SaveDiskEvent) (spilled : Nat) : SaveOutcome :=
  if createFails then
    { file := prior, ok := false }
  else
    match ev with
    | SaveDiskEvent.allOk => { file := savePlan reviews, ok := true }
    | SaveDiskEvent.writeFails j =>
      if j < (savePlan reviews).length then
        { file := (savePlan reviews).take (min spilled j), ok := false }
      else
        { file := savePlan reviews, ok := true }
    | SaveDiskEvent.flushFails =>
      { file := (savePlan reviews).take spilled, ok := true }

/-- `main` after the save call (main.go lines 340-342): a save error is
fatal for the run (`log.Fatalf`). -/
def runAbortsFatal (saveOk : Bool) : Bool :=
  !saveOk

/-- One parsed CSV row of the state file; `csv.ReadAll` guarantees each
row has the same field count as the 7-field header, so a row is modelled
with its seven fields `record[0]` .. `record[6]`. -/
structure CsvRow where
  c0 : String
  c1 : String
  c2 : String
  c3 : String
  c4 : String
  c5 : String
  c6 : String
deriving DecidableEq, Repr

/-- `strconv.ParseBool` with its error ignored (main.go line 143): the
recognized truthy spellings parse to `true`, everything else (including a
parse error) leaves the zero value `false`. -/
def parseBoolD (s : String) : Bool :=
  s == "1" || s == "t" || s == "T" || s == "TRUE" || s == "true" || s == "True"

/-- `strconv.Atoi` with its error ignored (main.go line 144): an
unparseable integer leaves the zero value `0`. -/
def atoiD (s : String) : Int :=
  (s.toInt?).getD 0

/-- The `Review` built from one data row (main.go lines 142-154).
`parseDate` stands for `time.Parse(time.RFC3339, ·)` with its error
ignored; its result never influences control flow. -/
def rowToReview (parseDate : String → Int) (record : CsvRow) : Review :=
  { ReviewID := record.c0
    Rating := atoiD record.c1
    Text := record.c2
    Author := record.c3
    Device := record.c4
    Date := parseDate record.c5
    Notified := parseBoolD record.c6 }

/-- `readExistingReviews` (main.go lines 121-158). `file = none` models a
state file that does not exist (`os.IsNotExist`), which yields the empty
map, not an error. Otherwise `records` is the parsed row list; the code's
`records[1:]` skips the header, and in Go that slice expression panics
when `records` is empty — modelled as `none`. -/
def readExistingReviews (parseDate : String → Int)
    (file : Option (List CsvRow)) : Option (List (String × Review)) :=
  match file with
  | none => some []
  | some records =>
    match records with
    | [] => none
    | _ :: rest =>
      some (rest.foldl
        (fun reviews record => mapInsert reviews record.c0 (rowToReview parseDate record))
        [])

/-! ## Basic lemmas about the association-list map -/

theorem mapLookup_insert_self (m : List (String × Review)) (k : String) (v : Review) :
    mapLookup (mapInsert m k v) k = some v := by
  induction m with
  | nil => simp [mapInsert, mapLookup]
  | cons p rest ih =>
    obtain ⟨k', v'⟩ := p
    by_cases h : k' = k
    · simp [mapInsert, h, mapLookup]
    · simp [mapInsert, h, mapLookup, ih]

theorem mapLookup_insert_ne (m : List (String × Review)) (k j : String) (v : Review)
    (h : j ≠ k) : mapLookup (mapInsert m k v) j = mapLookup m j := by
  have hkj : ¬ k = j := fun hh => h hh.symm
  induction m with
  | nil => simp [mapInsert, mapLookup, hkj]
  | cons p rest ih =>
    obtain ⟨k', v'⟩ := p
    by_cases hk : k' = k
    · subst hk
      simp [mapInsert, mapLookup, hkj]
    · simp [mapInsert, mapLookup, hk, ih]

theorem mapLookup_insert_isSome (m : List (String × Review)) (k j : String)
    (v r : Review) (h : mapLookup m j = some r) :
    ∃ r', mapLookup (mapInsert m k v) j = some r' := by
  by_cases hj : j = k
  · subst hj; exact ⟨v, mapLookup_insert_self m j v⟩
  · exact ⟨r, by rw [mapLookup_insert_ne m k j v hj]; exact h⟩

/-! ## Branch lemmas for one loop iteration -/

theorem reconStep_emptyComments (ratingRange : Option RatingRange)
    (deliver : Review → Bool) (acc : ReconResult) (raw : RawReview)
    (h : raw.Comments = []) :
    reconStep ratingRange deliver acc raw = none := by
  simp [reconStep, h]

theorem reconStep_filtered (ratingRange : Option RatingRange)
    (deliver : Review → Bool) (acc : ReconResult) (raw : RawReview)
    (c : RawComment) (cs : List RawComment)
    (h : raw.Comments = c :: cs)
    (hf : ratingMatches ratingRange c.UserComment.StarRating = false) :
    reconStep ratingRange deliver acc raw = some acc := by
  simp [reconStep, h, hf]

theorem reconStep_alreadyNotified (ratingRange : Option RatingRange)
    (deliver : Review → Bool) (acc : ReconResult) (raw : RawReview)
    (c : RawComment) (cs : List RawComment)
    (h : raw.Comments = c :: cs)
    (hf : ratingMatches ratingRange c.UserComment.StarRating = true)
    (hc : isCandidate acc.state raw.ReviewId = false) :
    reconStep ratingRange deliver acc raw = some acc := by
  simp [reconStep, h, hf, hc]

theorem reconStep_delivered (ratingRange : Option RatingRange)
    (deliver : Review → Bool) (acc : ReconResult) (raw : RawReview)
    (c : RawComment) (cs : List RawComment)
    (h : raw.Comments = c :: cs)
    (hf : ratingMatches ratingRange c.UserComment.StarRating = true)
    (hc : isCandidate acc.state raw.ReviewId = true)
    (hd : deliver (mkReview raw c) = true) :
    reconStep ratingRange deliver acc raw =
      some { state := mapInsert acc.state raw.ReviewId { mkReview raw c with Notified := true }
             newReviews := acc.newReviews ++ [{ mkReview raw c with Notified := true }]
             attempts := acc.attempts ++ [raw.ReviewId] } := by
  simp [reconStep, h, hf, hc, hd]

theorem reconStep_deliveryFailed (ratingRange : Option RatingRange)
    (deliver : Review → Bool) (acc : ReconResult) (raw : RawReview)
    (c : RawComment) (cs : List RawComment)
    (h : raw.Comments = c :: cs)
    (hf : ratingMatches ratingRange c.UserComment.StarRating = true)
    (hc : isCandidate acc.state raw.ReviewId = true)
    (hd : deliver (mkReview raw c) = false) :
    reconStep ratingRange deliver acc raw =
      some { acc with attempts := acc.attempts ++ [raw.ReviewId] } := by
  simp [reconStep, h, hf, hc, hd]

/-- Full case analysis of one successful loop iteration. -/
theorem reconStep_cases (ratingRange : Option RatingRange)
    (deliver : Review → Bool) (acc acc' : ReconResult) (raw : RawReview)
    (h : reconStep ratingRange deliver acc raw = some acc') :
    ∃ c cs, raw.Comments = c :: cs ∧
      ((ratingMatches ratingRange c.UserComment.StarRating = false ∧ acc' = acc)
       ∨ (ratingMatches ratingRange c.UserComment.StarRating = true
          ∧ isCandidate acc.state raw.ReviewId = false ∧ acc' = acc)
       ∨ (ratingMatches ratingRange c.UserComment.StarRating = true
          ∧ isCandidate acc.state raw.ReviewId = true
          ∧ deliver (mkReview raw c) = true
          ∧ acc' = { state := mapInsert acc.state raw.ReviewId { mkReview raw c with Notified := true }
                     newReviews := acc.newReviews ++ [{ mkReview raw c with Notified := true }]
                     attempts := acc.attempts ++ [raw.ReviewId] })
       ∨ (ratingMatches ratingRange c.UserComment.StarRating = true
          ∧ isCandidate acc.state raw.ReviewId = true
          ∧ deliver (mkReview raw c) = false
          ∧ acc' = { acc with attempts := acc.attempts ++ [raw.ReviewId] })) := by
  cases hcom : raw.Comments with
  | nil => rw [reconStep_emptyComments ratingRange deliver acc raw hcom] at h; cases h
  | cons c cs =>
    refine ⟨c, cs, rfl, ?_⟩
    by_cases hf : ratingMatches ratingRange c.UserComment.StarRating = false
    · rw [reconStep_filtered ratingRange deliver acc raw c cs hcom hf] at h
      exact Or.inl ⟨hf, (Option.some.injEq _ _ ▸ h).symm⟩
    · have hf' : ratingMatches ratingRange c.UserComment.StarRating = true := by
        revert hf; cases ratingMatches ratingRange c.UserComment.StarRating <;> simp
      by_cases hc : isCandidate acc.state raw.ReviewId
      · by_cases hd : deliver (mkReview raw c)
        · rw [reconStep_delivered ratingRange deliver acc raw c cs hcom hf' hc hd] at h
          exact Or.inr (Or.inr (Or.inl ⟨hf', hc, hd, ((Option.some.injEq _ _).mp h).symm⟩))
        · have hd' : deliver (mkReview raw c) = false := by
            revert hd; cases deliver (mkReview raw c) <;> simp
          rw [reconStep_deliveryFailed ratingRange deliver acc raw c cs hcom hf' hc hd'] at h
          exact Or.inr (Or.inr (Or.inr ⟨hf', hc, hd', ((Option.some.injEq _ _).mp h).symm⟩))
      · have hc' : isCandidate acc.state raw.ReviewId = false := by
          revert hc; cases isCandidate acc.state raw.ReviewId <;> simp
        rw [reconStep_alreadyNotified ratingRange deliver acc raw c cs hcom hf' hc'] at h
        exact Or.inr (Or.inl ⟨hf', hc', ((Option.some.injEq _ _).mp h).symm⟩)

/-! ## Step-level frame and invariant lemmas -/

theorem isCandidate_true_lookup (st : List (String × Review)) (id : String)
    (r : Review) (hc : isCandidate st id = true) (h : mapLookup st id = some r) :
    r.Notified = false := by
  simp [isCandidate, h] at hc
  exact hc

theorem mkReview_reset (raw : RawReview) (c : RawComment) :
    ({ { mkReview raw c with Notified := true } with Notified := false } : Review)
      = mkReview raw c := rfl

theorem reconStep_state_frame (ratingRange : Option RatingRange)
    (deliver : Review → Bool) (acc acc' : ReconResult) (raw : RawReview)
    (h : reconStep ratingRange deliver acc raw = some acc')
    (k : String) (hk : k ≠ raw.ReviewId) :
    mapLookup acc'.state k = mapLookup acc.state k := by
  obtain ⟨c, cs, -, hcase⟩ := reconStep_cases ratingRange deliver acc acc' raw h
  rcases hcase with ⟨-, rfl⟩ | ⟨-, -, rfl⟩ | ⟨-, -, -, rfl⟩ | ⟨-, -, -, rfl⟩
  · rfl
  · rfl
  · exact mapLookup_insert_ne acc.state raw.ReviewId k _ hk
  · rfl

theorem reconStep_notified_frozen (ratingRange : Option RatingRange)
    (deliver : Review → Bool) (acc acc' : ReconResult) (raw : RawReview)
    (h : reconStep ratingRange deliver acc raw = some acc')
    (k : String) (r : Review)
    (hl : mapLookup acc.state k = some r) (hn : r.Notified = true) :
    mapLookup acc'.state k = some r := by
  obtain ⟨c, cs, -, hcase⟩ := reconStep_cases ratingRange deliver acc acc' raw h
  rcases hcase with ⟨-, rfl⟩ | ⟨-, -, rfl⟩ | ⟨-, hc, -, rfl⟩ | ⟨-, -, -, rfl⟩
  · exact hl
  · exact hl
  · by_cases hk : k = raw.ReviewId
    · subst hk
      have := isCandidate_true_lookup acc.state raw.ReviewId r hc hl
      rw [hn] at this
      cases this
    · rw [mapLookup_insert_ne acc.state raw.ReviewId k _ hk]
      exact hl
  · exact hl

theorem reconStep_lookup_some (ratingRange : Option RatingRange)
    (deliver : Review → Bool) (acc acc' : ReconResult) (raw : RawReview)
    (h : reconStep ratingRange deliver acc raw = some acc')
    (k : String) (r : Review) (hl : mapLookup acc.state k = some r) :
    ∃ r', mapLookup acc'.state k = some r' := by
  obtain ⟨c, cs, -, hcase⟩ := reconStep_cases ratingRange deliver acc acc' raw h
  rcases hcase with ⟨-, rfl⟩ | ⟨-, -, rfl⟩ | ⟨-, -, -, rfl⟩ | ⟨-, -, -, rfl⟩
  · exact ⟨r, hl⟩
  · exact ⟨r, hl⟩
  · exact mapLookup_insert_isSome acc.state raw.ReviewId k _ r hl
  · exact ⟨r, hl⟩

theorem reconStep_attempts (ratingRange : Option RatingRange)
    (deliver : Review → Bool) (acc acc' : ReconResult) (raw : RawReview)
    (h : reconStep ratingRange deliver acc raw = some acc') :
    ∃ t, acc'.attempts = acc.attempts ++ t ∧ ∀ x ∈ t, x = raw.ReviewId := by
  obtain ⟨c, cs, -, hcase⟩ := reconStep_cases ratingRange deliver acc acc' raw h
  rcases hcase with ⟨-, rfl⟩ | ⟨-, -, rfl⟩ | ⟨-, -, -, rfl⟩ | ⟨-, -, -, rfl⟩
  · exact ⟨[], by simp⟩
  · exact ⟨[], by simp⟩
  · exact ⟨[raw.ReviewId], by simp⟩
  · exact ⟨[raw.ReviewId], by simp⟩

theorem reconStep_news (ratingRange : Option RatingRange)
    (deliver : Review → Bool) (acc acc' : ReconResult) (raw : RawReview)
    (h : reconStep ratingRange deliver acc raw = some acc') :
    ∃ t, acc'.newReviews = acc.newReviews ++ t := by
  obtain ⟨c, cs, -, hcase⟩ := reconStep_cases ratingRange deliver acc acc' raw h
  rcases hcase with ⟨-, rfl⟩ | ⟨-, -, rfl⟩ | ⟨-, -, -, rfl⟩ | ⟨-, -, -, rfl⟩
  · exact ⟨[], by simp⟩
  · exact ⟨[], by simp⟩
  · exact ⟨_, rfl⟩
  · exact ⟨[], by simp⟩

theorem reconStep_state_new (ratingRange : Option RatingRange)
    (deliver : Review → Bool) (acc acc' : ReconResult) (raw : RawReview)
    (h : reconStep ratingRange deliver acc raw = some acc')
    (k : String) (r' : Review) (hl : mapLookup acc'.state k = some r') :
    mapLookup acc.state k = some r'
    ∨ (k = raw.ReviewId ∧ r'.Notified = true
       ∧ ratingMatches ratingRange r'.Rating = true
       ∧ deliver { r' with Notified := false } = true) := by
  obtain ⟨c, cs, -, hcase⟩ := reconStep_cases ratingRange deliver acc acc' raw h
  rcases hcase with ⟨-, rfl⟩ | ⟨-, -, rfl⟩ | ⟨hf, -, hd, rfl⟩ | ⟨-, -, -, rfl⟩
  · exact Or.inl hl
  · exact Or.inl hl
  · by_cases hk : k = raw.ReviewId
    · subst hk
      rw [mapLookup_insert_self] at hl
      have hr' : r' = { mkReview raw c with Notified := true } := (Option.some.injEq _ _).mp hl.symm
      subst hr'
      refine Or.inr ⟨rfl, rfl, ?_, ?_⟩
      · exact hf
      · rw [mkReview_reset]; exact hd
    · rw [mapLookup_insert_ne acc.state raw.ReviewId k _ hk] at hl
      exact Or.inl hl
  · exact Or.inl hl

/-! ## Run-level lemmas -/

theorem runFrom_append (ratingRange : Option RatingRange) (deliver : Review → Bool)
    (l₁ l₂ : List RawReview) :
    ∀ acc : ReconResult,
      runFrom ratingRange deliver acc (l₁ ++ l₂) =
        (runFrom ratingRange deliver acc l₁).bind
          (fun acc' => runFrom ratingRange deliver acc' l₂) := by
  induction l₁ with
  | nil => intro acc; simp [runFrom]
  | cons raw rest ih =>
    intro acc
    simp only [List.cons_append, runFrom]
    cases reconStep ratingRange deliver acc raw with
    | none => rfl
    | some acc' => exact ih acc'

theorem runFrom_notified_frozen (ratingRange : Option RatingRange)
    (deliver : Review → Bool) (fetch : List RawReview) :
    ∀ (acc res : ReconResult) (k : String) (r : Review),
      runFrom ratingRange deliver acc fetch = some res →
      mapLookup acc.state k = some r → r.Notified = true →
      mapLookup res.state k = some r := by
  induction fetch with
  | nil =>
    intro acc res k r hrun hl _
    simp only [runFrom] at hrun
    cases hrun
    exact hl
  | cons raw rest ih =>
    intro acc res k r hrun hl hn
    simp only [runFrom] at hrun
    cases hstep : reconStep ratingRange deliver acc raw with
    | none => rw [hstep] at hrun; cases hrun
    | some acc' =>
      rw [hstep] at hrun
      exact ih acc' res k r hrun
        (reconStep_notified_frozen ratingRange deliver acc acc' raw hstep k r hl hn) hn

theorem runFrom_state_frame (ratingRange : Option RatingRange)
    (deliver : Review → Bool) (fetch : List RawReview) :
    ∀ (acc res : ReconResult) (k : String),
      runFrom ratingRange deliver acc fetch = some res →
      k ∉ fetch.map (·.ReviewId) →
      mapLookup res.state k = mapLookup acc.state k := by
  induction fetch with
  | nil =>
    intro acc res k hrun _
    simp only [runFrom] at hrun
    cases hrun
    rfl
  | cons raw rest ih =>
    intro acc res k hrun hk
    simp only [List.map_cons, List.mem_cons] at hk
    push_neg at hk
    simp only [runFrom] at hrun
    cases hstep : reconStep ratingRange deliver acc raw with
    | none => rw [hstep] at hrun; cases hrun
    | some acc' =>
      rw [hstep] at hrun
      rw [ih acc' res k hrun (by simpa using hk.2)]
      exact reconStep_state_frame ratingRange deliver acc acc' raw hstep k hk.1

theorem runFrom_lookup_some (ratingRange : Option RatingRange)
    (deliver : Review → Bool) (fetch : List RawReview) :
    ∀ (acc res : ReconResult) (k : String) (r : Review),
      runFrom ratingRange deliver acc fetch = some res →
      mapLookup acc.state k = some r →
      ∃ r', mapLookup res.state k = some r' := by
  induction fetch with
  | nil =>
    intro acc res k r hrun hl
    simp only [runFrom] at hrun
    cases hrun
    exact ⟨r, hl⟩
  | cons raw rest ih =>
    intro acc res k r hrun hl
    simp only [runFrom] at hrun
    cases hstep : reconStep ratingRange deliver acc raw with
    | none => rw [hstep] at hrun; cases hrun
    | some acc' =>
      rw [hstep] at hrun
      obtain ⟨r'', hl''⟩ :=
        reconStep_lookup_some ratingRange deliver acc acc' raw hstep k r hl
      exact ih acc' res k r'' hrun hl''

theorem runFrom_attempts (ratingRange : Option RatingRange)
    (deliver : Review → Bool) (fetch : List RawReview) :
    ∀ (acc res : ReconResult),
      runFrom ratingRange deliver acc fetch = some res →
      ∃ t, res.attempts = acc.attempts ++ t ∧ ∀ x ∈ t, x ∈ fetch.map (·.ReviewId) := by
  induction fetch with
  | nil =>
    intro acc res hrun
    simp only [runFrom] at hrun
    cases hrun
    exact ⟨[], by simp⟩
  | cons raw rest ih =>
    intro acc res hrun
    simp only [runFrom] at hrun
    cases hstep : reconStep ratingRange deliver acc raw with
    | none => rw [hstep] at hrun; cases hrun
    | some acc' =>
      rw [hstep] at hrun
      obtain ⟨t₁, ht₁, ht₁mem⟩ :=
        reconStep_attempts ratingRange deliver acc acc' raw hstep
      obtain ⟨t₂, ht₂, ht₂mem⟩ := ih acc' res hrun
      refine ⟨t₁ ++ t₂, by rw [ht₂, ht₁, List.append_assoc], ?_⟩
      intro x hx
      rcases List.mem_append.mp hx with hx₁ | hx₂
      · simp [ht₁mem x hx₁]
      · simp only [List.map_cons, List.mem_cons]
        exact Or.inr (ht₂mem x hx₂)

theorem runFrom_news (ratingRange : Option RatingRange)
    (deliver : Review → Bool) (fetch : List RawReview) :
    ∀ (acc res : ReconResult),
      runFrom ratingRange deliver acc fetch = some res →
      ∃ t, res.newReviews = acc.newReviews ++ t := by
  induction fetch with
  | nil =>
    intro acc res hrun
    simp only [runFrom] at hrun
    cases hrun
    exact ⟨[], by simp⟩
  | cons raw rest ih =>
    intro acc res hrun
    simp only [runFrom] at hrun
    cases hstep : reconStep ratingRange deliver acc raw with
    | none => rw [hstep] at hrun; cases hrun
    | some acc' =>
      rw [hstep] at hrun
      obtain ⟨t₁, ht₁⟩ := reconStep_news ratingRange deliver acc acc' raw hstep
      obtain ⟨t₂, ht₂⟩ := ih acc' res hrun
      exact ⟨t₁ ++ t₂, by rw [ht₂, ht₁, List.append_assoc]⟩

theorem runFrom_state_new (ratingRange : Option RatingRange)
    (deliver : Review → Bool) (fetch : List RawReview) :
    ∀ (acc res : ReconResult) (k : String) (r' : Review),
      runFrom ratingRange deliver acc fetch = some res →
      mapLookup res.state k = some r' →
      mapLookup acc.state k = some r'
      ∨ (k ∈ fetch.map (·.ReviewId) ∧ r'.Notified = true
         ∧ ratingMatches ratingRange r'.Rating = true
         ∧ deliver { r' with Notified := false } = true) := by
  induction fetch with
  | nil =>
    intro acc res k r' hrun hl
    simp only [runFrom] at hrun
    cases hrun
    exact Or.inl hl
  | cons raw rest ih =>
    intro acc res k r' hrun hl
    simp only [runFrom] at hrun
    cases hstep : reconStep ratingRange deliver acc raw with
    | none => rw [hstep] at hrun; cases hrun
    | some acc' =>
      rw [hstep] at hrun
      rcases ih acc' res k r' hrun hl with hl' | ⟨hmem, hrest⟩
      · rcases reconStep_state_new ratingRange deliver acc acc' raw hstep k r' hl' with
          h | ⟨hk, hrest'⟩
        · exact Or.inl h
        · exact Or.inr ⟨by simp [hk], hrest'⟩
      · exact Or.inr ⟨by simp only [List.map_cons, List.mem_cons]; exact Or.inr hmem, hrest⟩

theorem runFrom_no_emptyComments (ratingRange : Option RatingRange)
    (deliver : Review → Bool) (fetch : List RawReview) :
    ∀ (acc res : ReconResult),
      runFrom ratingRange deliver acc fetch = some res →
      ∀ raw ∈ fetch, raw.Comments ≠ [] := by
  induction fetch with
  | nil => intro acc res _ raw hraw; cases hraw
  | cons raw rest ih =>
    intro acc res hrun raw' hraw'
    simp only [runFrom] at hrun
    cases hstep : reconStep ratingRange deliver acc raw with
    | none => rw [hstep] at hrun; cases hrun
    | some acc' =>
      rw [hstep] at hrun
      rcases List.mem_cons.mp hraw' with rfl | hmem
      · intro hcom
        rw [reconStep_emptyComments ratingRange deliver acc raw' hcom] at hstep
        cases hstep
      · exact ih acc' res hrun raw' hmem

/-! ## Example values used in witnesses and counterexamples -/

/-- A raw review with rating 2 (rejected by a 4-5 filter). -/
def rawLowEx : RawReview :=
  { ReviewId := "r-low"
    AuthorName := "alice"
    Comments := [{ UserComment :=
      { StarRating := 2, Text := " meh ", DeviceMetadata := none,
        LastModifiedSeconds := 100 } }] }

/-- A raw review whose `Comments` slice is empty. -/
def rawNoCommentsEx : RawReview :=
  { ReviewId := "r-empty", AuthorName := "bob", Comments := [] }

/-- A stored review record that has already been notified. -/
def reviewNotifiedEx : Review :=
  { ReviewID := "r0", Rating := 5, Text := "good", Author := "ann"
    Device := "Pixel", Date := 0, Notified := true }

/-- A review record used as save input. -/
def reviewSaveEx : Review :=
  { ReviewID := "r1", Rating := 3, Text := "ok", Author := "ben"
    Device := "Unknown", Date := 10, Notified := true }

/-! ## Claim theorems (first batch) -/

/-- C2: a review passes the rating filter iff no range is configured or
`Start ≤ rating ≤ End`; a review the filter rejects leaves the loop
accumulator untouched — it is neither notified (no delivery attempt) nor
added to the state set in that run. -/
theorem rating_filter_correct :
    (∀ s e r, ratingMatches (some { Start := s, End := e }) r = true ↔ (s ≤ r ∧ r ≤ e))
    ∧ (∀ r, ratingMatches none r = true)
    ∧ (∀ ratingRange deliver acc raw c cs, raw.Comments = c :: cs →
        ratingMatches ratingRange c.UserComment.StarRating = false →
        reconStep ratingRange deliver acc raw = some acc) := by
  refine ⟨?_, ?_, ?_⟩
  · intro s e r
    simp only [ratingMatches, Bool.not_eq_true', Bool.or_eq_false_iff,
      decide_eq_false_iff_not, not_lt]
  · intro r; rfl
  · intro ratingRange deliver acc raw c cs h hf
    exact reconStep_filtered ratingRange deliver acc raw c cs h hf

/-- Witness for C2: a concrete rating-2 review against a 4-5 range is
skipped, leaving the accumulator unchanged. -/
theorem rating_filter_correct_witness :
    reconStep (some { Start := 4, End := 5 }) (fun _ => true)
      { state := [], newReviews := [], attempts := [] } rawLowEx =
      some { state := [], newReviews := [], attempts := [] } :=
  rating_filter_correct.2.2 (some { Start := 4, End := 5 }) (fun _ => true)
    { state := [], newReviews := [], attempts := [] } rawLowEx _ _ rfl (by decide)

/-- C7 counterexample: in live mode, a webhook response with a non-success
status (here 429) returns an error without observing the two-second pacing
delay — the sleep at main.go line 226 sits after the status check, so the
claim that the delay is observed on the non-success branch is false. -/
theorem webhook_pacing_counterexample :
    sendToWebhook false (HttpOutcome.status 429) = { ok := false, delaySeconds := 0 }
    ∧ (sendToWebhook false (HttpOutcome.status 429)).delaySeconds ≠ 2 := by
  decide

/-- C7 (amended): the two-second pacing delay is observed exactly on the
dry-run branch and the live branch with a 200 response; a transport error
or a non-success status returns immediately, with no pacing delay, which
is also exactly when the call reports failure. -/
theorem webhook_pacing_amended (testMode : Bool) (post : HttpOutcome) :
    ((sendToWebhook testMode post).delaySeconds = 2 ↔
      (testMode = true ∨ post = HttpOutcome.status 200))
    ∧ ((sendToWebhook testMode post).ok = true ↔
      (testMode = true ∨ post = HttpOutcome.status 200)) := by
  cases testMode with
  | true => simp [sendToWebhook]
  | false =>
    cases post with
    | transportError => simp [sendToWebhook]
    | status code =>
      by_cases h : code = 200
      · subst h; simp [sendToWebhook]
      · simp [sendToWebhook, h]

/-- C8: a fetched review whose `Comments` slice is empty makes the run
crash — the loop reads `review.Comments[0]` before any other handling
(main.go line 303), which panics in Go; the record is not skipped and the
run does not continue. -/
theorem empty_comments_crash :
    runReconciler none (fun _ => true) [] [rawNoCommentsEx] = none := by
  rfl

/-- C9 counterexample: `saveReviews` starts with `os.Create`, which
truncates the state file in place; when a later row write fails (here the
first record row, after the header had spilled to disk), the call returns
an error and the file holds only the header — the previously persisted
content (a header and one record) is destroyed, so a persistence failure
does not leave the prior state file intact. -/
theorem save_not_atomic_counterexample :
    (saveReviews [SavedRow.header, SavedRow.record reviewNotifiedEx]
        [reviewSaveEx] false (SaveDiskEvent.writeFails 1) 1).ok = false
    ∧ (saveReviews [SavedRow.header, SavedRow.record reviewNotifiedEx]
        [reviewSaveEx] false (SaveDiskEvent.writeFails 1) 1).file = [SavedRow.header]
    ∧ (saveReviews [SavedRow.header, SavedRow.record reviewNotifiedEx]
        [reviewSaveEx] false (SaveDiskEvent.writeFails 1) 1).file
      ≠ [SavedRow.header, SavedRow.record reviewNotifiedEx] := by
  decide

/-- C9 (amended): a failed save (an error returned to `main`) is fatal for
the run. But the write is in place (create-truncate), not atomic: after a
successful create the prior file is destroyed and, whatever happens next,
the file is left some prefix of the intended header-plus-records content —
on an in-loop write failure a possibly proper prefix remains; only a
failure of `os.Create` itself leaves the prior file intact. Nor does a
successful return mean every record was written: only when all underlying
I/O succeeds does success coincide with the full content on disk, while a
failure of the deferred final `Flush` is discarded, so the call can return
nil with as little as nothing written (`spilled = 0`). -/
theorem save_failure_behavior (prior : List SavedRow) (reviews : List Review)
    (createFails : Bool) (ev : SaveDiskEvent) (spilled : Nat) :
    ((saveReviews prior reviews createFails ev spilled).ok = false →
      runAbortsFatal (saveReviews prior reviews createFails ev spilled).ok = true)
    ∧ (createFails = true →
      (saveReviews prior reviews createFails ev spilled).ok = false
      ∧ (saveReviews prior reviews createFails ev spilled).file = prior)
    ∧ (createFails = false →
      ∃ n, (saveReviews prior reviews createFails ev spilled).file
        = (savePlan reviews).take n)
    ∧ ((saveReviews prior reviews false SaveDiskEvent.allOk spilled).ok = true
      ∧ (saveReviews prior reviews false SaveDiskEvent.allOk spilled).file = savePlan reviews)
    ∧ ((saveReviews prior reviews false SaveDiskEvent.flushFails 0).ok = true
      ∧ (saveReviews prior reviews false SaveDiskEvent.flushFails 0).file = []) := by
  refine ⟨?_, ?_, ?_, ⟨rfl, rfl⟩, ⟨rfl, rfl⟩⟩
  · intro h
    rw [h]
    rfl
  · intro h
    subst h
    exact ⟨rfl, rfl⟩
  · intro h
    subst h
    cases ev with
    | allOk => exact ⟨(savePlan reviews).length, (List.take_length _).symm⟩
    | writeFails j =>
      by_cases hj : j < (savePlan reviews).length
      · exact ⟨min spilled j, by simp [saveReviews, hj]⟩
      · exact ⟨(savePlan reviews).length, by simp [saveReviews, hj, List.take_length]⟩
    | flushFails => exact ⟨spilled, rfl⟩

/-- Witness for C9's amended theorem: a concrete failing save (record
write fails at row position 1, header already spilled) aborts the run
fatally, and the resulting file is a prefix of the intended content. -/
theorem save_failure_behavior_witness :
    runAbortsFatal (saveReviews [SavedRow.header, SavedRow.record reviewNotifiedEx]
        [reviewSaveEx] false (SaveDiskEvent.writeFails 1) 1).ok = true
    ∧ ∃ n, (saveReviews [SavedRow.header, SavedRow.record reviewNotifiedEx]
        [reviewSaveEx] false (SaveDiskEvent.writeFails 1) 1).file
      = (savePlan [reviewSaveEx]).take n :=
  ⟨(save_failure_behavior [SavedRow.header, SavedRow.record reviewNotifiedEx]
      [reviewSaveEx] false (SaveDiskEvent.writeFails 1) 1).1 (by decide),
   (save_failure_behavior [SavedRow.header, SavedRow.record reviewNotifiedEx]
      [reviewSaveEx] false (SaveDiskEvent.writeFails 1) 1).2.2.1 rfl⟩

/-- C10: loading prior state yields the empty map when the state file does
not exist; for an existing file the load returns normally iff the parsed
record list is nonempty (the code's `records[1:]` panics on an empty
list); exactly the first row is skipped as the header, so a header-only
file yields the empty map. -/
theorem load_skips_header (parseDate : String → Int) :
    readExistingReviews parseDate none = some []
    ∧ (∀ records : List CsvRow,
        (∃ m, readExistingReviews parseDate (some records) = some m) ↔ records ≠ [])
    ∧ (∀ h : CsvRow, readExistingReviews parseDate (some [h]) = some [])
    ∧ (∀ (h : CsvRow) (rest : List CsvRow),
        readExistingReviews parseDate (some (h :: rest)) =
          some (rest.foldl
            (fun reviews record =>
              mapInsert reviews record.c0 (rowToReview parseDate record)) [])) := by
  refine ⟨rfl, ?_, ?_, ?_⟩
  · intro records
    cases records with
    | nil => simp [readExistingReviews]
    | cons h rest => simp [readExistingReviews]
  · intro h; rfl
  · intro h rest; rfl

/-! ## Candidate-test helpers -/

theorem isCandidate_false_lookup (st : List (String × Review)) (id : String)
    (hc : isCandidate st id = false) :
    ∃ er, mapLookup st id = some er ∧ er.Notified = true := by
  unfold isCandidate at hc
  cases h : mapLookup st id with
  | none => rw [h] at hc; cases hc
  | some er =>
    rw [h] at hc
    exact ⟨er, rfl, by simpa using hc⟩

theorem isCandidate_congr (st st' : List (String × Review)) (id : String)
    (h : mapLookup st id = mapLookup st' id) :
    isCandidate st id = isCandidate st' id := by
  unfold isCandidate
  rw [h]

/-! ## All-success runs mark every filter-passing fetched id as notified -/

theorem runFrom_allSuccess_notified (ratingRange : Option RatingRange)
    (fetch : List RawReview) :
    ∀ (acc res : ReconResult),
      runFrom ratingRange (fun _ => true) acc fetch = some res →
      ∀ raw ∈ fetch, ∀ c cs, raw.Comments = c :: cs →
        ratingMatches ratingRange c.UserComment.StarRating = true →
        ∃ r, mapLookup res.state raw.ReviewId = some r ∧ r.Notified = true := by
  induction fetch with
  | nil => intro acc res _ raw hraw; cases hraw
  | cons raw0 rest ih =>
    intro acc res hrun raw hraw c cs hcom hf
    simp only [runFrom] at hrun
    cases hstep : reconStep ratingRange (fun _ => true) acc raw0 with
    | none => rw [hstep] at hrun; cases hrun
    | some acc' =>
      rw [hstep] at hrun
      rcases List.mem_cons.mp hraw with rfl | hmem
      · have hstate : ∃ r, mapLookup acc'.state raw.ReviewId = some r ∧ r.Notified = true := by
          obtain ⟨c', cs', hcom', hcase⟩ := reconStep_cases _ _ acc acc' raw hstep
          rw [hcom] at hcom'
          obtain ⟨rfl, rfl⟩ := List.cons.inj hcom'
          rcases hcase with ⟨hf', -⟩ | ⟨-, hc, heq⟩ | ⟨-, -, -, rfl⟩ | ⟨-, -, hd, -⟩
          · rw [hf] at hf'; cases hf'
          · obtain ⟨er, hl, hn⟩ := isCandidate_false_lookup _ raw.ReviewId hc
            refine ⟨er, ?_, hn⟩
            rw [heq]
            exact hl
          · exact ⟨_, mapLookup_insert_self _ _ _, rfl⟩
          · cases hd
        obtain ⟨r, hl, hn⟩ := hstate
        exact ⟨r, runFrom_notified_frozen _ _ rest acc' res _ r hrun hl hn, hn⟩
      · exact ih acc' res hrun raw hmem c cs hcom hf

/-! ## A run over fully-notified fetched ids is a no-op -/

theorem runFrom_allNotified_noop (ratingRange : Option RatingRange)
    (deliver : Review → Bool) (fetch : List RawReview) (acc : ReconResult)
    (hne : ∀ raw ∈ fetch, raw.Comments ≠ [])
    (hinv : ∀ raw ∈ fetch, ∀ c cs, raw.Comments = c :: cs →
      ratingMatches ratingRange c.UserComment.StarRating = true →
      ∃ r, mapLookup acc.state raw.ReviewId = some r ∧ r.Notified = true) :
    runFrom ratingRange deliver acc fetch = some acc := by
  induction fetch with
  | nil => rfl
  | cons raw0 rest ih =>
    obtain ⟨c, cs, hcom⟩ : ∃ c cs, raw0.Comments = c :: cs := by
      cases h : raw0.Comments with
      | nil => exact absurd h (hne raw0 (List.mem_cons_self _ _))
      | cons c cs => exact ⟨c, cs, rfl⟩
    have hstep : reconStep ratingRange deliver acc raw0 = some acc := by
      by_cases hf : ratingMatches ratingRange c.UserComment.StarRating = false
      · exact reconStep_filtered _ _ acc raw0 c cs hcom hf
      · have hf' : ratingMatches ratingRange c.UserComment.StarRating = true := by
          revert hf; cases ratingMatches ratingRange c.UserComment.StarRating <;> simp
        obtain ⟨r, hl, hn⟩ := hinv raw0 (List.mem_cons_self _ _) c cs hcom hf'
        have hc : isCandidate acc.state raw0.ReviewId = false := by
          simp [isCandidate, hl, hn]
        exact reconStep_alreadyNotified _ _ acc raw0 c cs hcom hf' hc
    simp only [runFrom, hstep]
    exact ih (fun raw h => hne raw (List.mem_cons_of_mem _ h))
      (fun raw h => hinv raw (List.mem_cons_of_mem _ h))

/-! ## Decomposing a run at one member of a duplicate-free fetch -/

theorem runFrom_member_split (ratingRange : Option RatingRange)
    (deliver : Review → Bool) (st₀ : List (String × Review))
    (fetch : List RawReview) (res : ReconResult) (raw : RawReview)
    (hrun : runReconciler ratingRange deliver st₀ fetch = some res)
    (hnodup : (fetch.map (·.ReviewId)).Nodup)
    (hmem : raw ∈ fetch) :
    ∃ (acc₁ acc₂ : ReconResult) (l₁ l₂ : List RawReview),
      fetch = l₁ ++ raw :: l₂
      ∧ raw.ReviewId ∉ l₁.map (·.ReviewId)
      ∧ raw.ReviewId ∉ l₂.map (·.ReviewId)
      ∧ runFrom ratingRange deliver
          { state := st₀, newReviews := [], attempts := [] } l₁ = some acc₁
      ∧ reconStep ratingRange deliver acc₁ raw = some acc₂
      ∧ runFrom ratingRange deliver acc₂ l₂ = some res
      ∧ mapLookup acc₁.state raw.ReviewId = mapLookup st₀ raw.ReviewId
      ∧ raw.ReviewId ∉ acc₁.attempts := by
  obtain ⟨l₁, l₂, rfl⟩ := List.append_of_mem hmem
  have hnd := hnodup
  rw [List.map_append, List.map_cons] at hnd
  have hmid := List.nodup_middle.mp hnd
  have hnotin : raw.ReviewId ∉ l₁.map (·.ReviewId) ++ l₂.map (·.ReviewId) :=
    (List.nodup_cons.mp hmid).1
  have hnotin₁ : raw.ReviewId ∉ l₁.map (·.ReviewId) := fun h =>
    hnotin (List.mem_append.mpr (Or.inl h))
  have hnotin₂ : raw.ReviewId ∉ l₂.map (·.ReviewId) := fun h =>
    hnotin (List.mem_append.mpr (Or.inr h))
  simp only [runReconciler] at hrun
  rw [runFrom_append] at hrun
  cases h₁ : runFrom ratingRange deliver
      { state := st₀, newReviews := [], attempts := [] } l₁ with
  | none => rw [h₁] at hrun; cases hrun
  | some acc₁ =>
    rw [h₁] at hrun
    simp only [Option.some_bind, runFrom] at hrun
    cases h₂ : reconStep ratingRange deliver acc₁ raw with
    | none => rw [h₂] at hrun; cases hrun
    | some acc₂ =>
      rw [h₂] at hrun
      refine ⟨acc₁, acc₂, l₁, l₂, rfl, hnotin₁, hnotin₂, h₁, h₂, hrun, ?_, ?_⟩
      · exact runFrom_state_frame ratingRange deliver l₁ _ acc₁
          raw.ReviewId h₁ hnotin₁
      · obtain ⟨t, ht, htmem⟩ := runFrom_attempts ratingRange deliver l₁ _ acc₁ h₁
        rw [ht]
        simp only [List.nil_append]
        intro hx
        exact hnotin₁ (htmem _ hx)

/-! ## More example values -/

/-- A raw review with id "r0" matching the stored, already-notified record. -/
def rawR0Ex : RawReview :=
  { ReviewId := "r0"
    AuthorName := "ann"
    Comments := [{ UserComment :=
      { StarRating := 5, Text := "good", DeviceMetadata := none,
        LastModifiedSeconds := 0 } }] }

/-- A fresh raw review with id "r2". -/
def rawR2Ex : RawReview :=
  { ReviewId := "r2"
    AuthorName := "cat"
    Comments := [{ UserComment :=
      { StarRating := 4, Text := "nice", DeviceMetadata := none,
        LastModifiedSeconds := 5 } }] }

/-- The record a successful delivery of `rawR2Ex` stores. -/
def reviewR2DeliveredEx : Review :=
  { ReviewID := "r2", Rating := 4, Text := "nice", Author := "cat"
    Device := "Unknown", Date := 5, Notified := true }

/-! ## Claim theorems (second batch) -/

/-- C4: the `Notified` flag is monotonic for every review id: once a
state maps the id to a record with `Notified = true`, no loop iteration
of the reconciler and no sequence of subsequent runs produces a state in
which that id's record differs — in particular the flag never returns to
`false`. -/
theorem notified_monotonic (id : String) (r : Review) (hr : r.Notified = true) :
    (∀ (ratingRange : Option RatingRange) (deliver : Review → Bool)
        (acc acc' : ReconResult) (raw : RawReview),
      reconStep ratingRange deliver acc raw = some acc' →
      mapLookup acc.state id = some r →
      mapLookup acc'.state id = some r)
    ∧ (∀ (runs : List RunInput) (st₀ stF : List (String × Review)),
      multiRun st₀ runs = some stF →
      mapLookup st₀ id = some r →
      mapLookup stF id = some r) := by
  constructor
  · intro ratingRange deliver acc acc' raw hstep hl
    exact reconStep_notified_frozen ratingRange deliver acc acc' raw hstep id r hl hr
  · intro runs
    induction runs with
    | nil =>
      intro st₀ stF hrun hl
      simp only [multiRun] at hrun
      cases hrun
      exact hl
    | cons ri rest ih =>
      intro st₀ stF hrun hl
      simp only [multiRun] at hrun
      cases hone : runOnce st₀ ri with
      | none => rw [hone] at hrun; cases hrun
      | some st₁ =>
        rw [hone] at hrun
        apply ih st₁ stF hrun
        obtain ⟨resr, hres, hst⟩ :
            ∃ resr, runReconciler ri.ratingRange ri.deliver st₀ ri.fetch = some resr
              ∧ resr.state = st₁ := by
          simpa [runOnce, Option.map_eq_some'] using hone
        subst hst
        simp only [runReconciler] at hres
        exact runFrom_notified_frozen ri.ratingRange ri.deliver ri.fetch _ resr
          id r hres hl hr

/-- Witness for C4: a stored already-notified record at id "r0" is still
mapped to the very same record after a run that fetches and delivers a
fresh review "r2". -/
theorem notified_monotonic_witness :
    mapLookup [("r0", reviewNotifiedEx), ("r2", reviewR2DeliveredEx)] "r0"
      = some reviewNotifiedEx :=
  (notified_monotonic "r0" reviewNotifiedEx rfl).2
    [{ ratingRange := none, deliver := fun _ => true, fetch := [rawR2Ex] }]
    [("r0", reviewNotifiedEx)]
    [("r0", reviewNotifiedEx), ("r2", reviewR2DeliveredEx)]
    (by rfl) (by rfl)

/-- C6: a run never deletes a prior state entry: every id absent from the
fetch keeps exactly its prior record, every id present in the prior state
is still present, and every final entry is either an untouched prior entry
or a record of a fetched, filter-passing review inserted with
`Notified = true` after its delivery succeeded. -/
theorem state_retention (ratingRange : Option RatingRange)
    (deliver : Review → Bool) (st₀ : List (String × Review))
    (fetch : List RawReview) (res : ReconResult)
    (hrun : runReconciler ratingRange deliver st₀ fetch = some res) :
    (∀ k, k ∉ fetch.map (·.ReviewId) → mapLookup res.state k = mapLookup st₀ k)
    ∧ (∀ k r, mapLookup st₀ k = some r → ∃ r', mapLookup res.state k = some r')
    ∧ (∀ k r', mapLookup res.state k = some r' →
        mapLookup st₀ k = some r'
        ∨ (k ∈ fetch.map (·.ReviewId) ∧ r'.Notified = true
           ∧ ratingMatches ratingRange r'.Rating = true
           ∧ deliver { r' with Notified := false } = true)) := by
  simp only [runReconciler] at hrun
  refine ⟨?_, ?_, ?_⟩
  · intro k hk
    exact runFrom_state_frame ratingRange deliver fetch _ res k hrun hk
  · intro k r hl
    exact runFrom_lookup_some ratingRange deliver fetch _ res k r hrun hl
  · intro k r' hl
    exact runFrom_state_new ratingRange deliver fetch _ res k r' hrun hl

/-- Witness for C6: the prior entry at "r0", absent from a fetch that
delivers "r2", is looked up unchanged in the final state. -/
theorem state_retention_witness :
    mapLookup ({ state := [("r0", reviewNotifiedEx), ("r2", reviewR2DeliveredEx)]
                 newReviews := [reviewR2DeliveredEx]
                 attempts := ["r2"] } : ReconResult).state "r0"
      = mapLookup [("r0", reviewNotifiedEx)] "r0" :=
  (state_retention none (fun _ => true) [("r0", reviewNotifiedEx)] [rawR2Ex]
    _ (by rfl)).1 "r0" (by decide)

/-- C5: after a first run in which every delivery succeeded, a second run
of the reconciler on the same fetched list, from the state the first run
produced, makes zero notification attempts and reports an empty
`newReviews` sequence (and leaves the state unchanged), whatever the
second run's delivery outcomes would have been. -/
theorem reconciler_idempotent (ratingRange : Option RatingRange)
    (deliver₂ : Review → Bool) (st₀ : List (String × Review))
    (fetch : List RawReview) (res₁ : ReconResult)
    (hrun1 : runReconciler ratingRange (fun _ => true) st₀ fetch = some res₁) :
    runReconciler ratingRange deliver₂ res₁.state fetch =
      some { state := res₁.state, newReviews := [], attempts := [] } := by
  simp only [runReconciler] at hrun1 ⊢
  apply runFrom_allNotified_noop
  · exact runFrom_no_emptyComments _ _ fetch _ res₁ hrun1
  · intro raw hraw c cs hcom hf
    exact runFrom_allSuccess_notified ratingRange fetch _ res₁ hrun1 raw hraw c cs hcom hf

/-- Witness for C5: a concrete second run over the same single-element
fetch, after an all-success first run from the empty state, produces no
attempts and no new reviews. -/
theorem reconciler_idempotent_witness :
    runReconciler none (fun _ => false)
      ({ state := [("r2", reviewR2DeliveredEx)]
         newReviews := [reviewR2DeliveredEx]
         attempts := ["r2"] } : ReconResult).state [rawR2Ex]
      = some { state := [("r2", reviewR2DeliveredEx)], newReviews := [], attempts := [] } :=
  reconciler_idempotent none (fun _ => false) [] [rawR2Ex]
    { state := [("r2", reviewR2DeliveredEx)]
      newReviews := [reviewR2DeliveredEx]
      attempts := ["r2"] } (by rfl)

/-- C1: for a fetched review that passes the rating filter (fetch ids are
unique, as the platform's primary key guarantees), a notification is
attempted for its id iff the id is absent from the loaded state or present
with `Notified = false`; when the loaded state has the id with
`Notified = true`, the review is skipped and no notification is attempted
for it in that run. -/
theorem candidate_selection (ratingRange : Option RatingRange)
    (deliver : Review → Bool) (st₀ : List (String × Review))
    (fetch : List RawReview) (res : ReconResult) (raw : RawReview)
    (c : RawComment) (cs : List RawComment)
    (hrun : runReconciler ratingRange deliver st₀ fetch = some res)
    (hnodup : (fetch.map (·.ReviewId)).Nodup)
    (hmem : raw ∈ fetch)
    (hcom : raw.Comments = c :: cs)
    (hf : ratingMatches ratingRange c.UserComment.StarRating = true) :
    (raw.ReviewId ∈ res.attempts ↔ isCandidate st₀ raw.ReviewId = true)
    ∧ (∀ er, mapLookup st₀ raw.ReviewId = some er → er.Notified = true →
        raw.ReviewId ∉ res.attempts) := by
  obtain ⟨acc₁, acc₂, l₁, l₂, -, -, hn₂, -, h₂, h₃, hlook, hatt₁⟩ :=
    runFrom_member_split ratingRange deliver st₀ fetch res raw hrun hnodup hmem
  have hcandeq : isCandidate acc₁.state raw.ReviewId = isCandidate st₀ raw.ReviewId :=
    isCandidate_congr _ _ _ hlook
  have hmain : raw.ReviewId ∈ res.attempts ↔ isCandidate st₀ raw.ReviewId = true := by
    by_cases hc : isCandidate st₀ raw.ReviewId = true
    · have hc₁ : isCandidate acc₁.state raw.ReviewId = true := by
        rw [hcandeq]; exact hc
      have hatt₂ : raw.ReviewId ∈ acc₂.attempts := by
        by_cases hd : deliver (mkReview raw c) = true
        · rw [reconStep_delivered ratingRange deliver acc₁ raw c cs hcom hf hc₁ hd] at h₂
          cases h₂
          simp
        · have hd' : deliver (mkReview raw c) = false := by
            revert hd; cases deliver (mkReview raw c) <;> simp
          rw [reconStep_deliveryFailed ratingRange deliver acc₁ raw c cs hcom hf hc₁ hd'] at h₂
          cases h₂
          simp
      obtain ⟨t, ht, -⟩ := runFrom_attempts ratingRange deliver l₂ acc₂ res h₃
      rw [ht]
      simp [hatt₂, hc]
    · have hc₁ : isCandidate acc₁.state raw.ReviewId = false := by
        rw [hcandeq]
        revert hc; cases isCandidate st₀ raw.ReviewId <;> simp
      rw [reconStep_alreadyNotified ratingRange deliver acc₁ raw c cs hcom hf hc₁] at h₂
      cases h₂
      obtain ⟨t, ht, htm⟩ := runFrom_attempts ratingRange deliver l₂ acc₁ res h₃
      constructor
      · intro hin
        rw [ht] at hin
        rcases List.mem_append.mp hin with h | h
        · exact absurd h hatt₁
        · exact absurd (htm _ h) hn₂
      · intro h
        exact absurd h hc
  refine ⟨hmain, ?_⟩
  intro er hl hnn hin
  have hcf : isCandidate st₀ raw.ReviewId = false := by
    simp [isCandidate, hl, hnn]
  exact absurd (hmain.mp hin) (by simp [hcf])

/-- Witness for C1: a fetched review whose id "r0" sits in the loaded
state with `Notified = true` is not attempted (and the
attempted-iff-candidate equivalence holds at that input). -/
theorem candidate_selection_witness :
    (rawR0Ex.ReviewId ∈
        ({ state := [("r0", reviewNotifiedEx)], newReviews := [], attempts := [] }
          : ReconResult).attempts
      ↔ isCandidate [("r0", reviewNotifiedEx)] rawR0Ex.ReviewId = true)
    ∧ (∀ er, mapLookup [("r0", reviewNotifiedEx)] rawR0Ex.ReviewId = some er →
        er.Notified = true →
        rawR0Ex.ReviewId ∉
          ({ state := [("r0", reviewNotifiedEx)], newReviews := [], attempts := [] }
            : ReconResult).attempts) :=
  candidate_selection none (fun _ => true) [("r0", reviewNotifiedEx)] [rawR0Ex]
    { state := [("r0", reviewNotifiedEx)], newReviews := [], attempts := [] }
    rawR0Ex _ _ (by rfl) (by simp) (by simp) rfl rfl

/-- C3: within one run over a duplicate-free fetch, a filter-passing
candidate B whose delivery succeeds ends up in the final state as its
delivered record with `Notified = true` and in the `newReviews` sequence,
while a filter-passing candidate A whose delivery fails leaves the state
at A's id exactly as loaded (nothing inserted or updated); B is handled
regardless of A's failure, so processing continues past A. -/
theorem delivery_failure_isolation (ratingRange : Option RatingRange)
    (deliver : Review → Bool) (st₀ : List (String × Review))
    (fetch : List RawReview) (res : ReconResult)
    (rawA rawB : RawReview) (cA cB : RawComment) (csA csB : List RawComment)
    (hrun : runReconciler ratingRange deliver st₀ fetch = some res)
    (hnodup : (fetch.map (·.ReviewId)).Nodup)
    (hA : rawA ∈ fetch) (hcomA : rawA.Comments = cA :: csA)
    (hfA : ratingMatches ratingRange cA.UserComment.StarRating = true)
    (hcandA : isCandidate st₀ rawA.ReviewId = true)
    (hdA : deliver (mkReview rawA cA) = false)
    (hB : rawB ∈ fetch) (hcomB : rawB.Comments = cB :: csB)
    (hfB : ratingMatches ratingRange cB.UserComment.StarRating = true)
    (hcandB : isCandidate st₀ rawB.ReviewId = true)
    (hdB : deliver (mkReview rawB cB) = true) :
    mapLookup res.state rawB.ReviewId = some { mkReview rawB cB with Notified := true }
    ∧ { mkReview rawB cB with Notified := true } ∈ res.newReviews
    ∧ mapLookup res.state rawA.ReviewId = mapLookup st₀ rawA.ReviewId := by
  refine ⟨?_, ?_, ?_⟩
  · obtain ⟨b₁, b₂, lB₁, lB₂, -, -, hnB₂, -, hB₂, hB₃, hlookB, -⟩ :=
      runFrom_member_split ratingRange deliver st₀ fetch res rawB hrun hnodup hB
    have hcB₁ : isCandidate b₁.state rawB.ReviewId = true := by
      rw [isCandidate_congr _ _ _ hlookB]; exact hcandB
    rw [reconStep_delivered ratingRange deliver b₁ rawB cB csB hcomB hfB hcB₁ hdB] at hB₂
    cases hB₂
    rw [runFrom_state_frame ratingRange deliver lB₂ _ res rawB.ReviewId hB₃ hnB₂]
    exact mapLookup_insert_self b₁.state rawB.ReviewId _
  · obtain ⟨b₁, b₂, lB₁, lB₂, -, -, hnB₂, -, hB₂, hB₃, hlookB, -⟩ :=
      runFrom_member_split ratingRange deliver st₀ fetch res rawB hrun hnodup hB
    have hcB₁ : isCandidate b₁.state rawB.ReviewId = true := by
      rw [isCandidate_congr _ _ _ hlookB]; exact hcandB
    rw [reconStep_delivered ratingRange deliver b₁ rawB cB csB hcomB hfB hcB₁ hdB] at hB₂
    cases hB₂
    obtain ⟨t, ht⟩ := runFrom_news ratingRange deliver lB₂ _ res hB₃
    rw [ht]
    simp
  · obtain ⟨a₁, a₂, lA₁, lA₂, -, -, hnA₂, -, hA₂, hA₃, hlookA, -⟩ :=
      runFrom_member_split ratingRange deliver st₀ fetch res rawA hrun hnodup hA
    have hcA₁ : isCandidate a₁.state rawA.ReviewId = true := by
      rw [isCandidate_congr _ _ _ hlookA]; exact hcandA
    rw [reconStep_deliveryFailed ratingRange deliver a₁ rawA cA csA hcomA hfA hcA₁ hdA] at hA₂
    cases hA₂
    exact (runFrom_state_frame ratingRange deliver lA₂ _ res rawA.ReviewId hA₃ hnA₂).trans hlookA

/-- The comment of failing candidate A. -/
def cAEx : RawComment :=
  { UserComment :=
    { StarRating := 1, Text := "bad", DeviceMetadata := none,
      LastModifiedSeconds := 1 } }

/-- The comment of succeeding candidate B. -/
def cBEx : RawComment :=
  { UserComment :=
    { StarRating := 5, Text := "great", DeviceMetadata := some { ProductName := "Pixel" },
      LastModifiedSeconds := 2 } }

/-- Candidate A, whose webhook delivery fails. -/
def rawAEx : RawReview :=
  { ReviewId := "rA", AuthorName := "al", Comments := [cAEx] }

/-- Candidate B, whose webhook delivery succeeds. -/
def rawBEx : RawReview :=
  { ReviewId := "rB", AuthorName := "bea", Comments := [cBEx] }

/-- A delivery oracle that succeeds exactly for review id "rB". -/
def deliverBOnlyEx : Review → Bool := fun r => r.ReviewID == "rB"

/-- Witness for C3: with A before B in the fetch and A's delivery failing,
B is persisted notified and reported, while A's id is absent from the
final state exactly as it was absent from the loaded (empty) state. -/
theorem delivery_failure_isolation_witness :
    mapLookup [("rB", { mkReview rawBEx cBEx with Notified := true })] rawBEx.ReviewId
      = some { mkReview rawBEx cBEx with Notified := true }
    ∧ { mkReview rawBEx cBEx with Notified := true }
        ∈ [{ mkReview rawBEx cBEx with Notified := true }]
    ∧ mapLookup [("rB", { mkReview rawBEx cBEx with Notified := true })] rawAEx.ReviewId
      = mapLookup ([] : List (String × Review)) rawAEx.ReviewId :=
  delivery_failure_isolation none deliverBOnlyEx [] [rawAEx, rawBEx]
    { state := [("rB", { mkReview rawBEx cBEx with Notified := true })]
      newReviews := [{ mkReview rawBEx cBEx with Notified := true }]
      attempts := ["rA", "rB"] }
    rawAEx rawBEx cAEx cBEx [] []
    (by rfl) (by decide) (by simp) rfl rfl rfl (by rfl)
    (by simp) rfl rfl rfl (by rfl)
